import Mathlib

/-!
Shallow embedding of the layout-resolution and composition engine of the
apigen-xml code generator (`src/common/api.rs`, with the record types from
`src/common/defines.rs`, the error type from `src/common/error.rs` and
`to_pascal_case` from `src/common/utils.rs`).

Machine integers (`usize`, `u32`) are modelled as `Nat`; the string-keyed
`HashMap`s are modelled as association lists whose observable operations
(`get`, overwriting `insert`) match the hash-map behaviour the engine uses.
The array-shorthand regex `\[([^;]+);\s*([^\]]+)\]` of the source is
modelled by an executable leftmost-first, greedy matcher with the
backtracking capture semantics of the `regex` crate.
-/

set_option maxHeartbeats 1000000

namespace ApigenXml

deriving instance DecidableEq for Except

/-- Association map modelling `std::collections::HashMap<String, α>`:
the engine only observes `get` and overwriting `insert`. -/
abbrev AMap (α : Type) := List (String × α)

def AMap.get {α : Type} : AMap α → String → Option α
  | [], _ => none
  | (k, v) :: rest, key => if k = key then some v else AMap.get rest key

def AMap.insert {α : Type} (m : AMap α) (k : String) (v : α) : AMap α :=
  (k, v) :: m

/-! ### Data model (`src/common/defines.rs`) -/

structure Copyright where
  spdx : String
  holder : String
  year : Nat
deriving DecidableEq

structure Constant where
  type_name : String
  name : String
  value : String
deriving DecidableEq

structure Member where
  type_name : String
  qualifier : String
  name : String
deriving DecidableEq

structure ArrayInfo where
  array_member_name : String
  array_base_type : String
  count_member_name : String
deriving DecidableEq

structure StructCommon where
  name : String
  members : List Member
  array_info : List ArrayInfo
deriving DecidableEq

structure StructDef where
  common : StructCommon
deriving DecidableEq

structure EnumEntry where
  name : String
  value : String
deriving DecidableEq

structure Enum where
  name : String
  type_name : String
  entries : List EnumEntry
deriving DecidableEq

structure Flag where
  name : String
  type_name : String
  entries : List EnumEntry
deriving DecidableEq

structure SType where
  name : String
  value : String
deriving DecidableEq

structure ExtensibleStruct where
  stype : SType
  common : StructCommon
  padding : Option Member
deriving DecidableEq

structure ExtensibleStructs where
  stypes_name : String
  structs : List ExtensibleStruct
  protocol_struct : StructCommon
  ffi_struct : StructCommon
deriving DecidableEq

structure Object where
  name : String
  ffi : String
  rust : String
deriving DecidableEq

structure Function where
  name : String
  ret : String
  members : List Member
deriving DecidableEq

structure Opcode where
  name : String
  value : String
deriving DecidableEq

structure Request where
  opcode : Opcode
  members : List Member
deriving DecidableEq

structure Response where
  opcode : Opcode
  members : List Member
deriving DecidableEq

structure Protocol where
  name : String
  protocol_struct_name : String
  requests : List Request
  responses : List Response
deriving DecidableEq

structure Definition where
  name : String
  items : List String
deriving DecidableEq

structure GeneratedFile where
  out_path : String
  file_name : String
  file_type : String
  includes : List String
  instantiations : List String
deriving DecidableEq

inductive DefinitionItem where
  | Constant (c : Constant)
  | Struct (s : StructDef)
  | Enum (e : Enum)
  | Flag (f : Flag)
  | ExtensibleStruct (s : ExtensibleStruct)
  | ExtensibleStructs (s : ExtensibleStructs)
  | Object (o : Object)
  | Function (f : Function)
  | Protocol (p : Protocol)
deriving DecidableEq

/-- Engine-relevant variants of `ApiGenError` (`src/common/error.rs`); the
I/O, XML, formatting and template variants wrap external failures that the
layout engine itself never produces. -/
inductive ApiGenError where
  | MissingAttribute (s : String)
  | TypeNotFound (s : String)
  | ConstantNotFound (s : String)
  | InvalidArrayTypeFormat (s : String)
  | InvalidConstantValue (name : String) (value : String)
deriving DecidableEq

/-! ### The array-shorthand regex `\[([^;]+);\s*([^\]]+)\]` -/

/-- Unicode `\s` character class of the `regex` crate (Unicode `White_Space`). -/
def isWs (c : Char) : Bool :=
  c == ' ' || c == '\t' || c == '\n' || c.toNat == 11 || c.toNat == 12 || c == '\r' ||
  c.toNat == 0x85 || c.toNat == 0xA0 || c.toNat == 0x1680 ||
  (decide (0x2000 ≤ c.toNat) && decide (c.toNat ≤ 0x200A)) ||
  c.toNat == 0x2028 || c.toNat == 0x2029 || c.toNat == 0x202F ||
  c.toNat == 0x205F || c.toNat == 0x3000

/-- Match `([^\]]+)\]` greedily at the head of `l`, allowing trailing input. -/
def tryGroup2 (l : List Char) : Option (List Char) :=
  let g2 := l.takeWhile (fun c => c != ']')
  if g2.isEmpty then none
  else
    match l.drop g2.length with
    | c :: _ => if c = ']' then some g2 else none
    | [] => none

/-- Backtracking for `\s*([^\]]+)\]`: `wrev` is the reversed whitespace run the
greedy `\s*` consumed; give characters back one at a time until the rest matches. -/
def go2 : List Char → List Char → Option (List Char)
  | [], rest => tryGroup2 rest
  | c :: wrev, rest =>
    match tryGroup2 rest with
    | some g2 => some g2
    | none => go2 wrev (c :: rest)

/-- Attempt to match `\[([^;]+);\s*([^\]]+)\]` starting at the head of the input,
returning the two capture groups. -/
def matchArrayAt : List Char → Option (List Char × List Char)
  | [] => none
  | c :: rest =>
    if c = '[' then
      let g1 := rest.takeWhile (fun c => c != ';')
      if g1.isEmpty then none
      else
        match rest.drop g1.length with
        | c2 :: after =>
          if c2 = ';' then
            let w := after.takeWhile isWs
            match go2 w.reverse (after.drop w.length) with
            | some g2 => some (g1, g2)
            | none => none
          else none
        | [] => none
    else none

/-- Leftmost-first search of the array-shorthand regex, as
`Regex::captures` performs over the whole string. -/
def regexSearch : List Char → Option (List Char × List Char)
  | [] => none
  | c :: rest =>
    match matchArrayAt (c :: rest) with
    | some r => some r
    | none => regexSearch rest

/-! ### SizeResolver and PaddingCalculator (`src/common/api.rs`) -/

def NUM_BYTES_IN_U64 : Nat := 8

def NUM_BYTES_IN_U32 : Nat := 4

/-- Model of `calculate_member_size`: total byte size of a field sequence against the
current registry, resolving the inline array shorthand. -/
def calculate_member_size : List Member → AMap Nat → Except ApiGenError Nat
  | [], _ => .ok 0
  | m :: rest, type_sizes =>
    match AMap.get type_sizes m.type_name with
    | some s =>
      match calculate_member_size rest type_sizes with
      | .error e => .error e
      | .ok acc => .ok (s + acc)
    | none =>
      match m.type_name.data with
      | c :: _ =>
        if c = '[' then
          match regexSearch m.type_name.data with
          | none => .error (.InvalidArrayTypeFormat m.type_name)
          | some (g1, g2) =>
            let base_type : String := ⟨g1⟩
            let count_name : String := ⟨g2⟩
            match AMap.get type_sizes base_type with
            | none => .error (.TypeNotFound base_type)
            | some base_type_size =>
              match AMap.get type_sizes count_name with
              | none => .error (.ConstantNotFound count_name)
              | some count =>
                match calculate_member_size rest type_sizes with
                | .error e => .error e
                | .ok acc => .ok (base_type_size * count + acc)
        else .error (.TypeNotFound m.type_name)
      | [] => .error (.TypeNotFound m.type_name)

/-- Model of `calculate_padding`: trailing padding field rounding `size` up to the next
8-byte boundary; the 4-byte remainder uses a `u32` scalar instead of a byte array. -/
def calculate_padding (size : Nat) : Option Member :=
  let padding := (NUM_BYTES_IN_U64 - size % NUM_BYTES_IN_U64) % NUM_BYTES_IN_U64
  if padding = NUM_BYTES_IN_U32 then
    some { type_name := "u32", qualifier := "", name := "padding" }
  else if padding > 0 then
    some { type_name := "[u8; " ++ Nat.repr padding ++ "]", qualifier := "", name := "padding" }
  else
    none

/-! ### Helpers from `src/common/utils.rs` and `str`/`usize` std behaviour -/

/-- Model of `char::to_ascii_uppercase`: map a code point in `a..z` (97..122) to the
corresponding upper-case letter, leave every other character unchanged. -/
def asciiUpper (c : Char) : Char :=
  if 97 ≤ c.toNat ∧ c.toNat ≤ 122 then Char.ofNat (c.toNat - 32) else c

def pascalGo : Bool → List Char → List Char
  | _, [] => []
  | capitalize, c :: rest =>
    if c = '_' then pascalGo true rest
    else if capitalize then asciiUpper c :: pascalGo false rest
    else c :: pascalGo false rest

/-- Model of `to_pascal_case` from `src/common/utils.rs`. -/
def to_pascal_case (s : String) : String := ⟨pascalGo true s.data⟩

/-- Model of `str::strip_suffix` on a single `s`, as used by `add_struct`. -/
def strip_suffix_s (s : String) : String :=
  if s.data.getLast? = some 's' then ⟨s.data.dropLast⟩ else s

def parseDigits (l : List Char) : Option Nat :=
  if l = [] then none
  else if l.all Char.isDigit then
    let v := l.foldl (fun acc c => acc * 10 + (c.toNat - 48)) 0
    if v < 2 ^ 64 then some v else none
  else none

/-- Model of `str::parse` into `usize` (64-bit target): optional `+` sign, decimal digits,
overflow rejected. -/
def parseUsize (s : String) : Option Nat :=
  match s.data with
  | [] => none
  | '+' :: ds => parseDigits ds
  | ds => parseDigits ds

/-! ### The registry (`struct Api`) and its ingestion operations -/

structure Api where
  name : String
  copyright : Copyright
  version : Nat
  definitions : AMap Definition
  definition_items : AMap DefinitionItem
  type_sizes : AMap Nat
  rust_to_c_typemap : AMap String
  generated_files : List GeneratedFile
deriving DecidableEq

/-- Model of `Api::new()`: registry seeded with the fixed primitive sizes. -/
def Api.new : Api :=
  { name := ""
    copyright := { spdx := "", holder := "", year := 0 }
    version := 0
    definitions := []
    definition_items := []
    type_sizes :=
      [("u8", 1), ("i8", 1), ("u16", 2), ("i16", 2), ("i32", 4), ("u32", 4),
       ("u64", 8), ("i64", 8), ("f64", 8), ("usize", 8),
       ("*mut std::ffi::c_void", 8)]
    rust_to_c_typemap :=
      [("u8", "uint8_t"), ("i8", "int8_t"), ("u16", "uint16_t"),
       ("i16", "int16_t"), ("i32", "int32_t"), ("u32", "uint32_t"),
       ("u64", "uint64_t"), ("i64", "int64_t"), ("f64", "double"),
       ("usize", "size_t"), ("*mut std::ffi::c_void", "void*")]
    generated_files := [] }

/-- Model of `Api::add_constant`. -/
def add_constant (api : Api) (constant : Constant) : Except ApiGenError Api :=
  match parseUsize constant.value with
  | none => .error (.InvalidConstantValue constant.name constant.value)
  | some value =>
    .ok { api with
      type_sizes := AMap.insert api.type_sizes constant.name value
      definition_items :=
        AMap.insert api.definition_items constant.name (.Constant constant) }

/-- The `ArrayInfo` post-processing loop at the head of `Api::add_struct`:
an array-shorthand member whose singular name plus `_count` names a sibling
member yields a derived relationship, in member order. -/
def derive_array_info (members : List Member) : List ArrayInfo :=
  members.filterMap (fun m =>
    match regexSearch m.type_name.data with
    | none => none
    | some (g1, _) =>
      let count_member_name := strip_suffix_s m.name ++ "_count"
      if members.any (fun m2 => m2.name == count_member_name) then
        some { array_member_name := m.name
               array_base_type := ⟨g1⟩
               count_member_name := count_member_name }
      else none)

/-- The struct after `add_struct`'s post-processing: derived `ArrayInfo`
entries appended, declared members untouched. -/
def processed_struct (struct_def : StructDef) : StructDef :=
  { common :=
      { struct_def.common with
        array_info :=
          struct_def.common.array_info ++ derive_array_info struct_def.common.members } }

/-- Model of `Api::add_struct`. -/
def add_struct (api : Api) (struct_def : StructDef) : Except ApiGenError Api :=
  let sd := processed_struct struct_def
  match calculate_member_size sd.common.members api.type_sizes with
  | .error e => .error e
  | .ok size =>
    .ok { api with
      type_sizes := AMap.insert api.type_sizes sd.common.name size
      definition_items :=
        AMap.insert api.definition_items sd.common.name (.Struct sd) }

/-- Model of `Api::add_enum`. -/
def add_enum (api : Api) (new_enum : Enum) : Except ApiGenError Api :=
  match AMap.get api.type_sizes new_enum.type_name with
  | none => .error (.TypeNotFound new_enum.type_name)
  | some size =>
    .ok { api with
      type_sizes := AMap.insert api.type_sizes new_enum.name size
      definition_items :=
        AMap.insert api.definition_items new_enum.name (.Enum new_enum) }

/-- Model of `Api::add_flag`. -/
def add_flag (api : Api) (new_flag : Flag) : Except ApiGenError Api :=
  match AMap.get api.type_sizes new_flag.type_name with
  | none => .error (.TypeNotFound new_flag.type_name)
  | some size =>
    .ok { api with
      type_sizes := AMap.insert api.type_sizes new_flag.name size
      definition_items :=
        AMap.insert api.definition_items new_flag.name (.Flag new_flag) }

/-- Model of `Api::add_object` (the ffi name is reassigned onto the item's name). -/
def add_object (api : Api) (object : Object) : Api :=
  let object' := { object with name := object.ffi }
  { api with
    definition_items :=
      AMap.insert api.definition_items object'.name (.Object object') }

/-- Model of `Api::add_function`. -/
def add_function (api : Api) (function : Function) : Api :=
  { api with
    definition_items :=
      AMap.insert api.definition_items function.name (.Function function) }

/-- One request/response payload inside `add_protocol`: prepend the header
member, recompute the size, append the padding field when non-zero. -/
def compose_payload (type_sizes : AMap Nat) (hdr : Member) (members : List Member) :
    Except ApiGenError (List Member) :=
  let ms := hdr :: members
  match calculate_member_size ms type_sizes with
  | .error e => .error e
  | .ok size =>
    match calculate_padding size with
    | some p => .ok (ms ++ [p])
    | none => .ok ms

/-- Sequential fallible map, as the `for` loops with `?` in the source:
first error aborts, earlier results kept in order. -/
def mapME {α β : Type} (f : α → Except ApiGenError β) :
    List α → Except ApiGenError (List β)
  | [] => .ok []
  | x :: xs =>
    match f x with
    | .error e => .error e
    | .ok y =>
      match mapME f xs with
      | .error e => .error e
      | .ok ys => .ok (y :: ys)

/-- Model of `Api::add_protocol`. The Rust method mutates `self` in place and returns
`Result<()>`; the pair returned here is the (possibly partially updated)
state together with that result. -/
def add_protocol (api : Api) (protocol : Protocol) : Api × Except ApiGenError Unit :=
  let protocol_struct_name := to_pascal_case protocol.name ++ "CommandHdr"
  let hdr_members : List Member :=
    [{ type_name := "u32", qualifier := "", name := "proto" },
     { type_name := "u32", qualifier := "", name := "size" }]
  let protocol_struct : StructDef :=
    { common := { name := protocol_struct_name, members := hdr_members, array_info := [] } }
  match calculate_member_size hdr_members api.type_sizes with
  | .error e => (api, .error e)
  | .ok size =>
    let api1 :=
      { api with
        type_sizes := AMap.insert api.type_sizes protocol_struct_name size
        definition_items :=
          AMap.insert api.definition_items protocol_struct_name (.Struct protocol_struct) }
    let header_member : Member :=
      { type_name := protocol_struct_name, qualifier := "", name := "hdr" }
    match mapME (fun r =>
        match compose_payload api1.type_sizes header_member r.members with
        | .error e => .error e
        | .ok ms => .ok { r with members := ms }) protocol.requests with
    | .error e => (api1, .error e)
    | .ok requests =>
      match mapME (fun r =>
          match compose_payload api1.type_sizes header_member r.members with
          | .error e => .error e
          | .ok ms => .ok { r with members := ms }) protocol.responses with
      | .error e => (api1, .error e)
      | .ok responses =>
        let protocol' :=
          { protocol with
            protocol_struct_name := protocol_struct_name
            requests := requests
            responses := responses }
        ({ api1 with
           definition_items :=
             AMap.insert api1.definition_items protocol.name (.Protocol protocol') },
         .ok ())

/-- The discriminator enum `add_extensible_structs` builds from the variants'
stypes (underlying type fixed at `u32`). -/
def mkStypeEnum (stypes_name : String) (parsed_structs : List ExtensibleStruct) : Enum :=
  { name := stypes_name
    type_name := "u32"
    entries := parsed_structs.map (fun s => { name := s.stype.name, value := s.stype.value }) }

/-- The per-variant loop of `add_extensible_structs`: resolve the variant's
own members, add the wire-header size, register the total, attach padding,
and record the variant item — mutating the registry as it goes. -/
def esLoop (hdr_size : Nat) (api : Api) :
    List ExtensibleStruct → Api × Except ApiGenError (List ExtensibleStruct)
  | [] => (api, .ok [])
  | s :: rest =>
    match calculate_member_size s.common.members api.type_sizes with
    | .error e => (api, .error e)
    | .ok size =>
      let total_size := size + hdr_size
      let s' := { s with padding := calculate_padding total_size }
      let api' :=
        { api with
          type_sizes := AMap.insert api.type_sizes s.common.name total_size
          definition_items :=
            AMap.insert api.definition_items s.common.name (.ExtensibleStruct s') }
      match esLoop hdr_size api' rest with
      | (api'', .error e) => (api'', .error e)
      | (api'', .ok rest') => (api'', .ok (s' :: rest'))

/-- Model of `Api::add_extensible_structs`; like `add_protocol`, the returned pair is
the (possibly partially updated) state plus the `Result<()>`. -/
def add_extensible_structs (api : Api) (stypes_name : String)
    (parsed_structs : List ExtensibleStruct) : Api × Except ApiGenError Unit :=
  let stype_enum := mkStypeEnum stypes_name parsed_structs
  match add_enum api stype_enum with
  | .error e => (api, .error e)
  | .ok api1 =>
    let protocol_struct_name := to_pascal_case stypes_name ++ "Hdr"
    let protocol_struct : StructCommon :=
      { name := protocol_struct_name
        members :=
          [{ type_name := stypes_name, qualifier := "", name := "stype" },
           { type_name := "u32", qualifier := "", name := "size" }]
        array_info := [] }
    match calculate_member_size protocol_struct.members api1.type_sizes with
    | .error e => (api1, .error e)
    | .ok protocol_struct_size =>
      let ffi_struct : StructCommon :=
        { name := to_pascal_case stypes_name ++ "FFI"
          members :=
            [{ type_name := stypes_name, qualifier := "", name := "stype" },
             { type_name := "*mut std::ffi::c_void", qualifier := "", name := "pNext" }]
          array_info := [] }
      match esLoop protocol_struct_size api1 parsed_structs with
      | (api2, .error e) => (api2, .error e)
      | (api2, .ok structs) =>
        let families : ExtensibleStructs :=
          { stypes_name := stypes_name
            structs := structs
            protocol_struct := protocol_struct
            ffi_struct := ffi_struct }
        ({ api2 with
           definition_items :=
             AMap.insert api2.definition_items stypes_name (.ExtensibleStructs families) },
         .ok ())

/-! ### Concrete fixtures used by the example runs below -/

/-- Registry snapshot with a 1-byte element type and a constant `N = 3`. -/
def tsUN : AMap Nat := [("u8", 1), ("N", 3)]

def pointStruct : StructDef :=
  ⟨⟨"Point", [⟨"u32", "", "x"⟩, ⟨"u32", "", "y"⟩], []⟩⟩

def tripleStruct : StructDef :=
  ⟨⟨"Triple", [⟨"u32", "", "a"⟩, ⟨"u32", "", "b"⟩, ⟨"u32", "", "c"⟩], []⟩⟩

def apiPoint : Api :=
  match add_struct Api.new pointStruct with
  | .ok a => a
  | .error _ => Api.new

def sdX : StructDef := ⟨⟨"X", [⟨"u32", "", "x1"⟩, ⟨"u32", "", "x2"⟩], []⟩⟩

def fnX : Function := ⟨"X", "u32", []⟩

def apiAfterX : Api :=
  match add_struct Api.new sdX with
  | .ok a => a
  | .error _ => Api.new

def apiAfterXF : Api := add_function apiAfterX fnX

def cK : Constant := ⟨"usize", "K", "5"⟩

def apiAfterK : Api :=
  match add_constant Api.new cK with
  | .ok a => a
  | .error _ => Api.new

/-- Protocol with a single empty-member request. -/
def pFoo : Protocol := ⟨"foo", "", [⟨⟨"op", "1"⟩, []⟩], []⟩

/-- Protocol whose only request references an unregistered type. -/
def pBad : Protocol := ⟨"foo", "", [⟨⟨"op", "1"⟩, [⟨"Bogus", "", "b"⟩]⟩], []⟩

/-- Two extensible-struct variants sharing the name `X`. -/
def esV1 : ExtensibleStruct := ⟨⟨"A", "1"⟩, ⟨"X", [⟨"u32", "", "a"⟩], []⟩, none⟩

def esV2 : ExtensibleStruct := ⟨⟨"B", "2"⟩, ⟨"X", [⟨"u64", "", "b"⟩], []⟩, none⟩

/-- A well-behaved variant with a fresh name. -/
def esW : ExtensibleStruct := ⟨⟨"A", "1"⟩, ⟨"V", [⟨"u32", "", "a"⟩], []⟩, none⟩

/-- A variant whose own name collides with the family's `stypes_name`. -/
def esK : ExtensibleStruct := ⟨⟨"A", "1"⟩, ⟨"kinds", [⟨"u32", "", "a"⟩], []⟩, none⟩

/-- A variant whose member references an unregistered type. -/
def esBad : ExtensibleStruct := ⟨⟨"A", "1"⟩, ⟨"Y", [⟨"Bogus", "", "b"⟩], []⟩, none⟩

/-- State after `add_enum` has registered the discriminator enum of the
single-variant family `kinds = [esW]`. -/
def apiEW : Api :=
  match add_enum Api.new (mkStypeEnum "kinds" [esW]) with
  | .ok a => a
  | .error _ => Api.new

/-- State after `add_enum` has registered the discriminator enum of the
two-variant family `kinds = [esW, esBad]` whose second variant fails. -/
def apiEB : Api :=
  match add_enum Api.new (mkStypeEnum "kinds" [esW, esBad]) with
  | .ok a => a
  | .error _ => Api.new

/-- An opaque object; `add_object` registers it under its ffi name `XO`. -/
def obX : Object := ⟨"", "XO", "RustXO"⟩

/-! ### Map and list helper lemmas -/

theorem AMap.get_insert_self {α : Type} (m : AMap α) (k : String) (v : α) :
    AMap.get (AMap.insert m k v) k = some v := by
  simp [AMap.insert, AMap.get]

theorem AMap.get_insert_ne {α : Type} (m : AMap α) (k key : String) (v : α)
    (h : k ≠ key) : AMap.get (AMap.insert m k v) key = AMap.get m key := by
  simp [AMap.insert, AMap.get, h]

theorem takeWhile_all_append {p : Char → Bool} :
    ∀ (l : List Char) (y : Char) (r : List Char),
      (∀ x ∈ l, p x = true) → p y = false →
      (l ++ y :: r).takeWhile p = l
  | [], y, r, _, hy => by simp [List.takeWhile_cons, hy]
  | x :: xs, y, r, hl, hy => by
    have hx : p x = true := hl x (by simp)
    simp only [List.cons_append, List.takeWhile_cons, hx, if_true]
    rw [takeWhile_all_append xs y r (fun z hz => hl z (by simp [hz])) hy]

theorem go2_of_some (g : List Char) :
    ∀ (wrev rest : List Char), tryGroup2 rest = some g → go2 wrev rest = some g
  | [], rest, h => by simpa [go2] using h
  | c :: wrev, rest, h => by simp [go2, h]

theorem tryGroup2_wellformed (C r : List Char) (hC : C ≠ []) (hCbr : ']' ∉ C) :
    tryGroup2 (C ++ ']' :: r) = some C := by
  have hall : ∀ x ∈ C, (x != ']') = true := by
    intro x hx
    simp only [bne_iff_ne, ne_eq]
    rintro rfl
    exact hCbr hx
  have h1 : (C ++ ']' :: r).takeWhile (fun c => c != ']') = C :=
    takeWhile_all_append C ']' r hall (by simp)
  unfold tryGroup2
  simp only [h1]
  obtain ⟨c0, cs, rfl⟩ := List.exists_cons_of_ne_nil hC
  simp [List.drop_left]

theorem matchArray_wellformed (T w C : List Char) (hT : T ≠ []) (hTs : ';' ∉ T)
    (hw : ∀ c ∈ w, isWs c = true) (hC : C ≠ []) (hCbr : ']' ∉ C)
    (hCh : ∀ c cs, C = c :: cs → isWs c = false) :
    matchArrayAt ('[' :: (T ++ ';' :: (w ++ (C ++ [']'])))) = some (T, C) := by
  obtain ⟨c0, cs, rfl⟩ := List.exists_cons_of_ne_nil hC
  have hallT : ∀ x ∈ T, (x != ';') = true := by
    intro x hx
    simp only [bne_iff_ne, ne_eq]
    rintro rfl
    exact hTs hx
  have hg1 : (T ++ ';' :: (w ++ (c0 :: cs ++ [']']))).takeWhile (fun c => c != ';') = T :=
    takeWhile_all_append T ';' _ hallT (by simp)
  have hg2 : tryGroup2 (c0 :: cs ++ [']']) = some (c0 :: cs) :=
    tryGroup2_wellformed (c0 :: cs) [] hC hCbr
  have hwtk : (w ++ (c0 :: (cs ++ [']']))).takeWhile isWs = w :=
    takeWhile_all_append w c0 _ hw (hCh c0 cs rfl)
  have hgo : go2 w.reverse (c0 :: (cs ++ [']'])) = some (c0 :: cs) :=
    go2_of_some (c0 :: cs) w.reverse (c0 :: (cs ++ [']'])) (by simpa using hg2)
  simp only [matchArrayAt, if_pos rfl]
  rw [hg1]
  obtain ⟨t0, ts, rfl⟩ := List.exists_cons_of_ne_nil hT
  simp only [List.isEmpty_cons, Bool.false_eq_true, if_false, List.drop_left]
  simp only [if_pos rfl, List.cons_append, List.append_assoc] at hwtk hgo ⊢
  rw [hwtk, List.drop_left, hgo]
  simp

theorem regex_wellformed (T w C : List Char) (hT : T ≠ []) (hTs : ';' ∉ T)
    (hw : ∀ c ∈ w, isWs c = true) (hC : C ≠ []) (hCbr : ']' ∉ C)
    (hCh : ∀ c cs, C = c :: cs → isWs c = false) :
    regexSearch ('[' :: (T ++ ';' :: (w ++ (C ++ [']'])))) = some (T, C) := by
  rw [regexSearch, matchArray_wellformed T w C hT hTs hw hC hCbr hCh]

/-- Head step of the size resolver on an array-shorthand member: the direct
lookup misses, the string starts with `[` and the regex captures `(g1, g2)`. -/
theorem cms_cons_array (ts : AMap Nat) (tn : String) (q nm : String)
    (rest : List Member) (g1 g2 tl : List Char)
    (hdata : tn.data = '[' :: tl) (hdir : AMap.get ts tn = none)
    (hre : regexSearch tn.data = some (g1, g2)) :
    calculate_member_size (⟨tn, q, nm⟩ :: rest) ts =
      (match AMap.get ts ⟨g1⟩ with
       | none => .error (.TypeNotFound ⟨g1⟩)
       | some s =>
         match AMap.get ts ⟨g2⟩ with
         | none => .error (.ConstantNotFound ⟨g2⟩)
         | some n =>
           match calculate_member_size rest ts with
           | .error e => .error e
           | .ok acc => .ok (s * n + acc)) := by
  rw [hdata] at hre
  simp only [calculate_member_size, hdir, hdata, hre, if_pos rfl]
  simp

/-- Head step of the size resolver when the string starts with `[` but the
regex does not match. -/
theorem cms_cons_badarray (ts : AMap Nat) (tn : String) (q nm : String)
    (rest : List Member) (tl : List Char)
    (hdata : tn.data = '[' :: tl) (hdir : AMap.get ts tn = none)
    (hre : regexSearch tn.data = none) :
    calculate_member_size (⟨tn, q, nm⟩ :: rest) ts =
      .error (.InvalidArrayTypeFormat tn) := by
  rw [hdata] at hre
  simp only [calculate_member_size, hdir, hdata, hre, if_pos rfl]
  simp

/-! ### Claim theorems -/

/-- C1: for every byte size `n`, the padding computed by `calculate_padding`
is `(8 - n % 8) % 8`, so `n + pad` is a multiple of 8 and `pad < 8`; a zero
pad yields no field, a pad of 4 yields exactly one scalar `u32` field, and
every other non-zero pad yields one fixed-size byte-array field `[u8; pad]`
of that exact length. -/
theorem c1_padding_law (n : Nat) :
    ((n + (8 - n % 8) % 8) % 8 = 0 ∧ (8 - n % 8) % 8 < 8) ∧
    calculate_padding n =
      (if (8 - n % 8) % 8 = 0 then none
       else if (8 - n % 8) % 8 = 4 then
         some { type_name := "u32", qualifier := "", name := "padding" }
       else
         some { type_name := "[u8; " ++ Nat.repr ((8 - n % 8) % 8) ++ "]",
                qualifier := "", name := "padding" }) := by
  refine ⟨⟨by omega, by omega⟩, ?_⟩
  have h : n % 8 = 0 ∨ n % 8 = 1 ∨ n % 8 = 2 ∨ n % 8 = 3 ∨ n % 8 = 4 ∨
      n % 8 = 5 ∨ n % 8 = 6 ∨ n % 8 = 7 := by omega
  unfold calculate_padding NUM_BYTES_IN_U64 NUM_BYTES_IN_U32
  rcases h with h | h | h | h | h | h | h | h <;> rw [h] <;> rfl

/-- C4: for a member whose type name is the array shorthand `"[T; C]"` and not
a direct registry key, the resolver adds `s * n` when `T ↦ s` and `C ↦ n` are
registered, fails with `TypeNotFound T` when `T` is unregistered, fails with
`ConstantNotFound C` when only `C` is unregistered, and a type name starting
with `[` that the shorthand grammar does not match fails with
`InvalidArrayTypeFormat`. -/
theorem c4_array_resolution (ts : AMap Nat) (T C : List Char) (q nm : String)
    (rest : List Member)
    (hT : T ≠ []) (hTs : ';' ∉ T) (hC : C ≠ []) (hCbr : ']' ∉ C)
    (hCh : ∀ c cs, C = c :: cs → isWs c = false)
    (hdir : AMap.get ts ⟨'[' :: (T ++ ';' :: (' ' :: (C ++ [']'])))⟩ = none) :
    (∀ s n, AMap.get ts ⟨T⟩ = some s → AMap.get ts ⟨C⟩ = some n →
       calculate_member_size
           (⟨⟨'[' :: (T ++ ';' :: (' ' :: (C ++ [']'])))⟩, q, nm⟩ :: rest) ts =
         match calculate_member_size rest ts with
         | .error e => .error e
         | .ok acc => .ok (s * n + acc)) ∧
    (AMap.get ts ⟨T⟩ = none →
       calculate_member_size
           (⟨⟨'[' :: (T ++ ';' :: (' ' :: (C ++ [']'])))⟩, q, nm⟩ :: rest) ts =
         .error (.TypeNotFound ⟨T⟩)) ∧
    (∀ s, AMap.get ts ⟨T⟩ = some s → AMap.get ts ⟨C⟩ = none →
       calculate_member_size
           (⟨⟨'[' :: (T ++ ';' :: (' ' :: (C ++ [']'])))⟩, q, nm⟩ :: rest) ts =
         .error (.ConstantNotFound ⟨C⟩)) ∧
    (∀ (tn : String) (tl : List Char),
       tn.data = '[' :: tl → AMap.get ts tn = none →
       regexSearch tn.data = none →
       calculate_member_size (⟨tn, q, nm⟩ :: rest) ts =
         .error (.InvalidArrayTypeFormat tn)) := by
  have hre : regexSearch ('[' :: (T ++ ';' :: (' ' :: (C ++ [']'])))) = some (T, C) := by
    have := regex_wellformed T [' '] C hT hTs
      (by intro c hc; simp at hc; subst hc; rfl) hC hCbr hCh
    simpa using this
  have hstep := cms_cons_array ts ⟨'[' :: (T ++ ';' :: (' ' :: (C ++ [']'])))⟩ q nm rest
    T C (T ++ ';' :: (' ' :: (C ++ [']']))) rfl hdir hre
  refine ⟨?_, ?_, ?_, ?_⟩
  · intro s n hs hn
    rw [hstep, hs, hn]
  · intro hnone
    rw [hstep, hnone]
  · intro s hs hnone
    rw [hstep, hs, hnone]
  · intro tn tl hdata hdirt hnore
    exact cms_cons_badarray ts tn q nm rest tl hdata hdirt hnore

/-- C4 witness: concrete runs of the four behaviours over the registry
`{u8 ↦ 1, N ↦ 3}`. -/
theorem c4_array_resolution_witness :
    calculate_member_size
        [⟨⟨'[' :: (['u', '8'] ++ ';' :: (' ' :: (['N'] ++ [']'])))⟩, "", "x"⟩] tsUN =
      .ok (1 * 3 + 0) ∧
    calculate_member_size
        [⟨⟨'[' :: (['z', 'z'] ++ ';' :: (' ' :: (['N'] ++ [']'])))⟩, "", "x"⟩] tsUN =
      .error (.TypeNotFound ⟨['z', 'z']⟩) ∧
    calculate_member_size
        [⟨⟨'[' :: (['u', '8'] ++ ';' :: (' ' :: (['M'] ++ [']'])))⟩, "", "x"⟩] tsUN =
      .error (.ConstantNotFound ⟨['M']⟩) ∧
    calculate_member_size [⟨⟨['[', 'a', 'b', 'c', ']']⟩, "", "x"⟩] tsUN =
      .error (.InvalidArrayTypeFormat ⟨['[', 'a', 'b', 'c', ']']⟩) := by
  refine ⟨?_, ?_, ?_, ?_⟩
  · have h := (c4_array_resolution tsUN ['u', '8'] ['N'] "" "x" []
      (by decide) (by decide) (by decide) (by decide)
      (by intro c cs hc; cases hc; rfl) (by decide)).1 1 3 (by decide) (by decide)
    exact h.trans (by rfl)
  · exact (c4_array_resolution tsUN ['z', 'z'] ['N'] "" "x" []
      (by decide) (by decide) (by decide) (by decide)
      (by intro c cs hc; cases hc; rfl) (by decide)).2.1 (by decide)
  · exact (c4_array_resolution tsUN ['u', '8'] ['M'] "" "x" []
      (by decide) (by decide) (by decide) (by decide)
      (by intro c cs hc; cases hc; rfl) (by decide)).2.2.1 1 (by decide) (by decide)
  · exact (c4_array_resolution tsUN ['u', '8'] ['N'] "" "x" []
      (by decide) (by decide) (by decide) (by decide)
      (by intro c cs hc; cases hc; rfl) (by decide)).2.2.2
      ⟨['[', 'a', 'b', 'c', ']']⟩ ['a', 'b', 'c', ']'] rfl (by decide) (by decide)

/-- C5 counterexample: over `{u8 ↦ 1, N ↦ 3}` the shorthand `"[u8; N]"`
resolves to 3, but `"[u8 ; N]"` (whitespace before the `;`) fails with
`TypeNotFound "u8 "` — the space is captured into the element-type name —
so the two are not resolved to the same size. -/
theorem c5_whitespace_counterexample :
    calculate_member_size [⟨"[u8 ; N]", "", "x"⟩] tsUN =
      .error (.TypeNotFound "u8 ") ∧
    calculate_member_size [⟨"[u8; N]", "", "x"⟩] tsUN = .ok 3 ∧
    (Except.error (ApiGenError.TypeNotFound "u8 ") ≠
      (Except.ok 3 : Except ApiGenError Nat)) := by
  refine ⟨by decide, by decide, by decide⟩

/-- C5 (amended): whitespace after the `;` of the array shorthand is
tolerated — any all-whitespace run `w` gives the same `s * n` resolution —
but whitespace before the `;` is not: it is captured into the element-type
name, so `"[T ; C]"` fails with `TypeNotFound "T "`. -/
theorem c5_whitespace_amended (ts : AMap Nat) (T C w : List Char)
    (q nm : String) (rest : List Member) (s n : Nat)
    (hT : T ≠ []) (hTs : ';' ∉ T)
    (hw : ∀ c ∈ w, isWs c = true)
    (hC : C ≠ []) (hCbr : ']' ∉ C) (hCh : ∀ c cs, C = c :: cs → isWs c = false)
    (hdir1 : AMap.get ts ⟨'[' :: (T ++ ';' :: (w ++ (C ++ [']'])))⟩ = none)
    (hdir2 : AMap.get ts ⟨'[' :: (T ++ ' ' :: ';' :: (' ' :: (C ++ [']'])))⟩ = none)
    (hTsz : AMap.get ts ⟨T⟩ = some s) (hCn : AMap.get ts ⟨C⟩ = some n)
    (hTsp : AMap.get ts ⟨T ++ [' ']⟩ = none) :
    calculate_member_size
        (⟨⟨'[' :: (T ++ ';' :: (w ++ (C ++ [']'])))⟩, q, nm⟩ :: rest) ts =
      (match calculate_member_size rest ts with
       | .error e => .error e
       | .ok acc => .ok (s * n + acc)) ∧
    calculate_member_size
        (⟨⟨'[' :: (T ++ ' ' :: ';' :: (' ' :: (C ++ [']'])))⟩, q, nm⟩ :: rest) ts =
      .error (.TypeNotFound ⟨T ++ [' ']⟩) := by
  constructor
  · have hre := regex_wellformed T w C hT hTs hw hC hCbr hCh
    have hstep := cms_cons_array ts ⟨'[' :: (T ++ ';' :: (w ++ (C ++ [']'])))⟩ q nm rest
      T C (T ++ ';' :: (w ++ (C ++ [']']))) rfl hdir1 hre
    rw [hstep, hTsz, hCn]
  · have hT' : T ++ [' '] ≠ [] := by simp
    have hTs2 : ';' ∉ T ++ [' '] := by
      simp only [List.mem_append, List.mem_singleton]
      rintro (h | h)
      · exact hTs h
      · cases h
    have hre := regex_wellformed (T ++ [' ']) [' '] C hT' hTs2
      (by intro c hc; simp at hc; subst hc; rfl) hC hCbr hCh
    have hshape : ('[' :: ((T ++ [' ']) ++ ';' :: ([' '] ++ (C ++ [']'])))) =
        ('[' :: (T ++ ' ' :: ';' :: (' ' :: (C ++ [']'])))) := by
      simp
    rw [hshape] at hre
    have hstep := cms_cons_array ts
      ⟨'[' :: (T ++ ' ' :: ';' :: (' ' :: (C ++ [']'])))⟩ q nm rest
      (T ++ [' ']) C (T ++ ' ' :: ';' :: (' ' :: (C ++ [']']))) rfl hdir2 hre
    rw [hstep, hTsp]

/-- C5 witness: over `{u8 ↦ 1, N ↦ 3}`, `"[u8; N]"` and `"[u8;  N]"`-style
spacings resolve to `1 * 3`, while `"[u8 ; N]"` fails with
`TypeNotFound "u8 "`. -/
theorem c5_whitespace_amended_witness :
    calculate_member_size
        [⟨⟨'[' :: (['u', '8'] ++ ';' :: ([' ', ' '] ++ (['N'] ++ [']'])))⟩, "", "x"⟩] tsUN =
      .ok (1 * 3 + 0) ∧
    calculate_member_size
        [⟨⟨'[' :: (['u', '8'] ++ ' ' :: ';' :: (' ' :: (['N'] ++ [']'])))⟩, "", "x"⟩] tsUN =
      .error (.TypeNotFound ⟨['u', '8'] ++ [' ']⟩) := by
  have h := c5_whitespace_amended tsUN ['u', '8'] ['N'] [' ', ' '] "" "x" [] 1 3
    (by decide) (by decide)
    (by intro c hc; simp at hc; rcases hc with rfl | rfl; rfl)
    (by decide) (by decide) (by intro c cs hc; cases hc; rfl)
    (by decide) (by decide) (by decide) (by decide) (by decide)
  exact ⟨h.1.trans (by rfl), h.2⟩

/-! ### Registration helper lemmas shared by several claims -/

theorem add_constant_spec (api : Api) (c : Constant) (api' : Api) (v : Nat)
    (hv : parseUsize c.value = some v) (hok : add_constant api c = .ok api') :
    AMap.get api'.type_sizes c.name = some v ∧
    AMap.get api'.definition_items c.name = some (.Constant c) := by
  unfold add_constant at hok
  rw [hv] at hok
  cases hok
  exact ⟨AMap.get_insert_self _ _ _, AMap.get_insert_self _ _ _⟩

theorem add_struct_spec (api : Api) (sd : StructDef) (api' : Api) (n : Nat)
    (hok : add_struct api sd = .ok api')
    (hn : calculate_member_size sd.common.members api.type_sizes = .ok n) :
    AMap.get api'.type_sizes sd.common.name = some n ∧
    AMap.get api'.definition_items sd.common.name =
      some (.Struct (processed_struct sd)) := by
  simp only [add_struct] at hok
  rw [show (processed_struct sd).common.members = sd.common.members from rfl] at hok
  rw [hn] at hok
  cases hok
  exact ⟨AMap.get_insert_self _ _ _, AMap.get_insert_self _ _ _⟩

theorem add_function_spec (api : Api) (f : Function) :
    AMap.get (add_function api f).definition_items f.name = some (.Function f) ∧
    ∀ k, AMap.get (add_function api f).type_sizes k = AMap.get api.type_sizes k :=
  ⟨AMap.get_insert_self _ _ _, fun _ => rfl⟩

theorem add_object_spec (api : Api) (o : Object) :
    AMap.get (add_object api o).definition_items o.ffi =
      some (.Object { o with name := o.ffi }) ∧
    ∀ k, AMap.get (add_object api o).type_sizes k = AMap.get api.type_sizes k :=
  ⟨AMap.get_insert_self _ _ _, fun _ => rfl⟩

/-- C7: a successfully ingested bare struct registers exactly the resolver sum
of its declared members, stores the struct with its declared member list
unchanged (no padding member is appended), and only the derived `ArrayInfo`
relationships are added. -/
theorem c7_bare_struct_no_padding (api : Api) (sd : StructDef) (api' : Api) (n : Nat)
    (hok : add_struct api sd = .ok api')
    (hn : calculate_member_size sd.common.members api.type_sizes = .ok n) :
    AMap.get api'.type_sizes sd.common.name = some n ∧
    AMap.get api'.definition_items sd.common.name =
      some (.Struct (processed_struct sd)) ∧
    (processed_struct sd).common.members = sd.common.members ∧
    (processed_struct sd).common.name = sd.common.name ∧
    (processed_struct sd).common.array_info =
      sd.common.array_info ++ derive_array_info sd.common.members := by
  have h := add_struct_spec api sd api' n hok hn
  exact ⟨h.1, h.2, rfl, rfl, rfl⟩

/-- C7 witness: `Point {x: u32, y: u32}` ingested into the fresh registry. -/
theorem c7_bare_struct_no_padding_witness :
    AMap.get apiPoint.type_sizes "Point" = some 8 ∧
    AMap.get apiPoint.definition_items "Point" =
      some (.Struct (processed_struct pointStruct)) ∧
    (processed_struct pointStruct).common.members = pointStruct.common.members := by
  have h := c7_bare_struct_no_padding Api.new pointStruct apiPoint 8
    (by decide) (by decide)
  exact ⟨h.1, h.2.1, h.2.2.1⟩

/-- C8: registering `Triple` (three 4-byte members) yields size 12 and the
struct is stored unpadded; the PaddingCalculator applied to 12 produces the
scalar 4-byte `u32` padding field (the size-4 special case) for a padded
total of 16; `Point` (two 4-byte members) yields size 8 and no padding. -/
theorem c8_point_triple_example :
    ((add_struct Api.new tripleStruct).toOption.bind
        (fun a => AMap.get a.type_sizes "Triple")) = some 12 ∧
    ((add_struct Api.new tripleStruct).toOption.bind
        (fun a => AMap.get a.definition_items "Triple")) =
      some (.Struct tripleStruct) ∧
    calculate_padding 12 =
      some { type_name := "u32", qualifier := "", name := "padding" } ∧
    12 + 4 = 16 ∧
    ((add_struct Api.new pointStruct).toOption.bind
        (fun a => AMap.get a.type_sizes "Point")) = some 8 ∧
    calculate_padding 8 = none := by
  refine ⟨by decide, by decide, by decide, by decide, by decide, by decide⟩

/-- C9 counterexample: registering struct `X` (size 8) and then function `X`
overwrites the item-namespace entry with the function, but the struct's size
8 is still visible in the type-size registry — the claim's "the first item's
size is no longer visible" fails for a second registration of a sizeless
kind. -/
theorem c9_overwrite_counterexample :
    AMap.get apiAfterX.type_sizes "X" = some 8 ∧
    AMap.get apiAfterX.definition_items "X" = some (.Struct (processed_struct sdX)) ∧
    AMap.get apiAfterXF.definition_items "X" = some (.Function fnX) ∧
    AMap.get apiAfterXF.type_sizes "X" = some 8 := by
  refine ⟨by decide, by decide, by decide, by decide⟩

/-- C9 (amended): re-registration under an existing name silently overwrites
with no duplicate detection — for size-bearing registrations (constants,
structs) the later entry wins in both the item namespace and the type-size
registry regardless of any prior binding; a function or object registration
overwrites only the item namespace (the object under its ffi name) and
leaves the type-size registry (hence any stale size under that name)
untouched. -/
theorem c9_overwrite_amended :
    (∀ (api : Api) (c : Constant) (api' : Api) (v : Nat),
       parseUsize c.value = some v → add_constant api c = .ok api' →
       AMap.get api'.type_sizes c.name = some v ∧
       AMap.get api'.definition_items c.name = some (.Constant c)) ∧
    (∀ (api : Api) (sd : StructDef) (api' : Api) (n : Nat),
       add_struct api sd = .ok api' →
       calculate_member_size sd.common.members api.type_sizes = .ok n →
       AMap.get api'.type_sizes sd.common.name = some n ∧
       AMap.get api'.definition_items sd.common.name =
         some (.Struct (processed_struct sd))) ∧
    (∀ (api : Api) (f : Function),
       AMap.get (add_function api f).definition_items f.name = some (.Function f) ∧
       ∀ k, AMap.get (add_function api f).type_sizes k = AMap.get api.type_sizes k) ∧
    (∀ (api : Api) (o : Object),
       AMap.get (add_object api o).definition_items o.ffi =
         some (.Object { o with name := o.ffi }) ∧
       ∀ k, AMap.get (add_object api o).type_sizes k = AMap.get api.type_sizes k) :=
  ⟨fun api c api' v hv hok => add_constant_spec api c api' v hv hok,
   fun api sd api' n hok hn => add_struct_spec api sd api' n hok hn,
   fun api f => add_function_spec api f,
   fun api o => add_object_spec api o⟩

/-- C9 witness: the constant `K = 5` registered over the fresh registry, a
function registration, and an object registration (stored under its ffi
name), both leaving type sizes untouched. -/
theorem c9_overwrite_amended_witness :
    AMap.get apiAfterK.type_sizes "K" = some 5 ∧
    AMap.get apiAfterK.definition_items "K" = some (.Constant cK) ∧
    AMap.get (add_function Api.new fnX).definition_items "X" = some (.Function fnX) ∧
    AMap.get (add_function Api.new fnX).type_sizes "u8" =
      AMap.get Api.new.type_sizes "u8" ∧
    AMap.get (add_object Api.new obX).definition_items "XO" =
      some (.Object { obX with name := obX.ffi }) ∧
    AMap.get (add_object Api.new obX).type_sizes "u8" =
      AMap.get Api.new.type_sizes "u8" := by
  have h1 := c9_overwrite_amended.1 Api.new cK apiAfterK 5 (by decide) (by decide)
  have h3 := c9_overwrite_amended.2.2.1 Api.new fnX
  have h4 := c9_overwrite_amended.2.2.2 Api.new obX
  exact ⟨h1.1, h1.2, h3.1, h3.2 "u8", h4.1, h4.2 "u8"⟩

/-! ### Lemmas about `mapME`, `compose_payload` and `to_pascal_case` -/

theorem mapME_ok_get {α β : Type} (f : α → Except ApiGenError β) :
    ∀ (l : List α) (l' : List β), mapME f l = .ok l' →
      ∀ i x, l.get? i = some x → ∃ y, l'.get? i = some y ∧ f x = .ok y
  | [], l', h => by
    simp only [mapME] at h
    cases h
    intro i x hx
    simp at hx
  | a :: as, l', h => by
    simp only [mapME] at h
    cases hfa : f a with
    | error e => rw [hfa] at h; cases h
    | ok y =>
      rw [hfa] at h
      cases hrec : mapME f as with
      | error e => rw [hrec] at h; cases h
      | ok ys =>
        rw [hrec] at h
        cases h
        intro i x hx
        cases i with
        | zero =>
          cases hx
          exact ⟨y, rfl, hfa⟩
        | succ i => exact mapME_ok_get f as ys hrec i x hx

theorem mapME_ok_rev {α β : Type} (f : α → Except ApiGenError β) :
    ∀ (l : List α) (l' : List β), mapME f l = .ok l' →
      ∀ i y, l'.get? i = some y → ∃ x, l.get? i = some x ∧ f x = .ok y
  | [], l', h => by
    simp only [mapME] at h
    cases h
    intro i y hy
    simp at hy
  | a :: as, l', h => by
    simp only [mapME] at h
    cases hfa : f a with
    | error e => rw [hfa] at h; cases h
    | ok y0 =>
      rw [hfa] at h
      cases hrec : mapME f as with
      | error e => rw [hrec] at h; cases h
      | ok ys =>
        rw [hrec] at h
        cases h
        intro i y hy
        cases i with
        | zero =>
          cases hy
          exact ⟨a, rfl, hfa⟩
        | succ i => exact mapME_ok_rev f as ys hrec i y hy

theorem compose_payload_head (ts : AMap Nat) (hdr : Member) (l ms : List Member)
    (h : compose_payload ts hdr l = .ok ms) : ms.head? = some hdr := by
  simp only [compose_payload] at h
  cases hsz : calculate_member_size (hdr :: l) ts with
  | error e => simp only [hsz] at h; cases h
  | ok sz =>
    simp only [hsz] at h
    cases hp : calculate_padding sz with
    | some pad =>
      simp only [hp] at h
      cases h
      simp
    | none =>
      simp only [hp] at h
      cases h
      rfl

theorem toNat_ofNat_valid (n : Nat) (h : n.isValidChar) :
    (Char.ofNat n).toNat = n := by
  unfold Char.ofNat
  rw [dif_pos h]
  rfl

theorem asciiUpper_ne_underscore (c : Char) (hc : c ≠ '_') : asciiUpper c ≠ '_' := by
  unfold asciiUpper
  split
  · rename_i h
    intro heq
    have hv : (c.toNat - 32).isValidChar := Or.inl (by omega)
    have ht := congrArg Char.toNat heq
    rw [toNat_ofNat_valid _ hv] at ht
    have h95 : ('_').toNat = 95 := by decide
    rw [h95] at ht
    omega
  · exact hc

theorem pascalGo_no_underscore : ∀ (b : Bool) (l : List Char), '_' ∉ pascalGo b l
  | _, [] => by simp [pascalGo]
  | b, c :: rest => by
    unfold pascalGo
    by_cases hc : c = '_'
    · rw [if_pos hc]
      exact pascalGo_no_underscore true rest
    · rw [if_neg hc]
      cases b with
      | false =>
        simp only [Bool.false_eq_true, if_false]
        intro hmem
        rcases List.mem_cons.mp hmem with h | h
        · exact hc h.symm
        · exact pascalGo_no_underscore false rest h
      | true =>
        simp only [if_true]
        intro hmem
        rcases List.mem_cons.mp hmem with h | h
        · exact asciiUpper_ne_underscore c hc h.symm
        · exact pascalGo_no_underscore false rest h

theorem pascalGo_length : ∀ (b : Bool) (l : List Char),
    (pascalGo b l).length = l.length - l.count '_'
  | _, [] => by simp [pascalGo]
  | b, c :: rest => by
    unfold pascalGo
    have hle := List.count_le_length '_' rest
    by_cases hc : c = '_'
    · subst hc
      rw [if_pos rfl, pascalGo_length true rest]
      simp [List.count_cons]
    · rw [if_neg hc]
      have hcnt : (c :: rest).count '_' = rest.count '_' := by
        simp [List.count_cons, hc]
      cases b with
      | false =>
        simp only [Bool.false_eq_true, if_false, List.length_cons,
          pascalGo_length false rest, hcnt]
        omega
      | true =>
        simp only [if_true, List.length_cons, pascalGo_length false rest, hcnt]
        omega

theorem pascalGo_count_underscore (b : Bool) (l : List Char) :
    (pascalGo b l).count '_' = 0 :=
  List.count_eq_zero.mpr (pascalGo_no_underscore b l)

theorem data_append (a b : String) : (a ++ b).data = a.data ++ b.data := by
  cases a
  cases b
  rfl

/-- A protocol's own name can never equal its synthesized header name:
`to_pascal_case` deletes exactly the underscores, so the lengths can only
match when the name has ten underscores, yet the equality forces it to have
none. -/
theorem protocol_name_ne_header (s : String) :
    s ≠ to_pascal_case s ++ "CommandHdr" := by
  intro heq
  have hdata : s.data = pascalGo true s.data ++ "CommandHdr".data := by
    have h1 := congrArg String.data heq
    rwa [data_append] at h1
  have hlen := congrArg List.length hdata
  rw [List.length_append, pascalGo_length] at hlen
  have hcnt := congrArg (fun l => List.count '_' l) hdata
  simp only [List.count_append, pascalGo_count_underscore] at hcnt
  have h10 : ("CommandHdr".data).length = 10 := by decide
  have h0 : List.count '_' ("CommandHdr".data) = 0 := by decide
  have hle := List.count_le_length '_' s.data
  rw [h10] at hlen
  rw [h0] at hcnt
  omega

/-- C3: for every successfully ingested protocol (over a registry with
`u32 ↦ 4`), the synthesized header type has exactly the two 4-byte fields
`proto` and `size` and registered size 8, the header-typed member `hdr` is
member index 0 of every composed request and response, and a request with an
empty declared member list composes to exactly the header (total size 8, no
padding member appended). -/
theorem c3_protocol_composition (api : Api) (p : Protocol) (api' : Api)
    (h4 : AMap.get api.type_sizes "u32" = some 4)
    (hok : add_protocol api p = (api', .ok ())) :
    AMap.get api'.type_sizes (to_pascal_case p.name ++ "CommandHdr") = some 8 ∧
    AMap.get api'.definition_items (to_pascal_case p.name ++ "CommandHdr") =
      some (.Struct ⟨⟨to_pascal_case p.name ++ "CommandHdr",
        [⟨"u32", "", "proto"⟩, ⟨"u32", "", "size"⟩], []⟩⟩) ∧
    ∃ p', AMap.get api'.definition_items p.name = some (.Protocol p') ∧
      p'.protocol_struct_name = to_pascal_case p.name ++ "CommandHdr" ∧
      (∀ i r, p'.requests.get? i = some r →
         r.members.head? =
           some ⟨to_pascal_case p.name ++ "CommandHdr", "", "hdr"⟩) ∧
      (∀ i r, p'.responses.get? i = some r →
         r.members.head? =
           some ⟨to_pascal_case p.name ++ "CommandHdr", "", "hdr"⟩) ∧
      (∀ i r, p.requests.get? i = some r → r.members = [] →
         p'.requests.get? i =
           some { r with
                  members := [⟨to_pascal_case p.name ++ "CommandHdr", "", "hdr"⟩] } ∧
         calculate_member_size
             [⟨to_pascal_case p.name ++ "CommandHdr", "", "hdr"⟩]
             api'.type_sizes = .ok 8 ∧
         calculate_padding 8 = none) := by
  have hsz : calculate_member_size
      [⟨"u32", "", "proto"⟩, ⟨"u32", "", "size"⟩] api.type_sizes = .ok 8 := by
    simp [calculate_member_size, h4]
  simp only [add_protocol, hsz] at hok
  split at hok
  · rename_i e hreq
    simp at hok
  · rename_i reqs hreq
    split at hok
    · rename_i e hres
      simp at hok
    · rename_i ress hres
      injection hok with h1 h2
      subst h1
      dsimp only
      have hne := protocol_name_ne_header p.name
      have hcms : calculate_member_size
          [⟨to_pascal_case p.name ++ "CommandHdr", "", "hdr"⟩]
          (AMap.insert api.type_sizes (to_pascal_case p.name ++ "CommandHdr") 8) =
          .ok 8 := by
        simp [calculate_member_size, AMap.get_insert_self]
      refine ⟨AMap.get_insert_self _ _ _, ?_, ?_⟩
      · rw [AMap.get_insert_ne _ _ _ _ hne, AMap.get_insert_self]
      · refine ⟨_, AMap.get_insert_self _ _ _, rfl, ?_, ?_, ?_⟩
        · intro i r hr
          obtain ⟨x, _, hfx⟩ := mapME_ok_rev _ _ _ hreq i r hr
          cases hcp : compose_payload
              (AMap.insert api.type_sizes (to_pascal_case p.name ++ "CommandHdr") 8)
              ⟨to_pascal_case p.name ++ "CommandHdr", "", "hdr"⟩ x.members with
          | error e => rw [hcp] at hfx; cases hfx
          | ok ms =>
            rw [hcp] at hfx
            cases hfx
            exact compose_payload_head _ _ _ _ hcp
        · intro i r hr
          obtain ⟨x, _, hfx⟩ := mapME_ok_rev _ _ _ hres i r hr
          cases hcp : compose_payload
              (AMap.insert api.type_sizes (to_pascal_case p.name ++ "CommandHdr") 8)
              ⟨to_pascal_case p.name ++ "CommandHdr", "", "hdr"⟩ x.members with
          | error e => rw [hcp] at hfx; cases hfx
          | ok ms =>
            rw [hcp] at hfx
            cases hfx
            exact compose_payload_head _ _ _ _ hcp
        · intro i r hri hempty
          have hcp0 : compose_payload
              (AMap.insert api.type_sizes (to_pascal_case p.name ++ "CommandHdr") 8)
              ⟨to_pascal_case p.name ++ "CommandHdr", "", "hdr"⟩ [] =
              .ok [⟨to_pascal_case p.name ++ "CommandHdr", "", "hdr"⟩] := by
            simp only [compose_payload, hcms]
            rfl
          obtain ⟨y, hy, hfy⟩ := mapME_ok_get _ _ _ hreq i r hri
          rw [hempty, hcp0] at hfy
          cases hfy
          exact ⟨hy, hcms, rfl⟩

/-- C3 witness: the protocol `foo` with one empty request over the fresh
registry registers an 8-byte `FooCommandHdr`. -/
theorem c3_protocol_composition_witness :
    AMap.get (add_protocol Api.new pFoo).1.type_sizes
      (to_pascal_case pFoo.name ++ "CommandHdr") = some 8 :=
  (c3_protocol_composition Api.new pFoo (add_protocol Api.new pFoo).1
    (by decide) (by decide)).1

/-! ### Lemmas about the extensible-structs loop -/

theorem add_enum_inv (api : Api) (e : Enum) (apiE : Api)
    (hE : add_enum api e = .ok apiE) :
    ∃ s, AMap.get api.type_sizes e.type_name = some s ∧
      apiE = { api with
               type_sizes := AMap.insert api.type_sizes e.name s
               definition_items :=
                 AMap.insert api.definition_items e.name (.Enum e) } := by
  simp only [add_enum] at hE
  cases hg : AMap.get api.type_sizes e.type_name with
  | none => simp only [hg] at hE; cases hE
  | some s =>
    simp only [hg] at hE
    injection hE with h
    exact ⟨s, rfl, h.symm⟩

theorem hdr_size_eight (api : Api) (n : String)
    (h4 : AMap.get api.type_sizes "u32" = some 4) :
    calculate_member_size
      [⟨n, "", "stype"⟩, ⟨"u32", "", "size"⟩]
      (AMap.insert api.type_sizes n 4) = .ok 8 := by
  have h1 : AMap.get (AMap.insert api.type_sizes n 4) n = some 4 :=
    AMap.get_insert_self _ _ _
  have h2 : AMap.get (AMap.insert api.type_sizes n 4) "u32" = some 4 := by
    rcases eq_or_ne n "u32" with rfl | hne
    · exact AMap.get_insert_self _ _ _
    · rw [AMap.get_insert_ne _ _ _ _ hne]
      exact h4
  simp [calculate_member_size, h1, h2]

/-- The per-variant loop leaves every key other than the processed variant
names untouched, in both registries, whether it succeeds or fails. -/
theorem esLoop_frame (hz : Nat) :
    ∀ (api : Api) (vs : List ExtensibleStruct) (k : String),
      (∀ v ∈ vs, v.common.name ≠ k) →
      AMap.get (esLoop hz api vs).1.type_sizes k = AMap.get api.type_sizes k ∧
      AMap.get (esLoop hz api vs).1.definition_items k =
        AMap.get api.definition_items k
  | _, [], _, _ => ⟨rfl, rfl⟩
  | api, s :: rest, k, hk => by
    have hne : s.common.name ≠ k := hk s (List.mem_cons_self s rest)
    have hrest : ∀ v ∈ rest, v.common.name ≠ k :=
      fun v hv => hk v (List.mem_cons_of_mem s hv)
    simp only [esLoop]
    split
    · exact ⟨rfl, rfl⟩
    · rename_i m hsz
      obtain ⟨ih1, ih2⟩ := esLoop_frame hz
        { api with
          type_sizes := AMap.insert api.type_sizes s.common.name (m + hz)
          definition_items := AMap.insert api.definition_items s.common.name
            (DefinitionItem.ExtensibleStruct
              { s with padding := calculate_padding (m + hz) }) }
        rest k hrest
      dsimp only at ih1 ih2
      rw [AMap.get_insert_ne _ _ _ _ hne] at ih1
      rw [AMap.get_insert_ne _ _ _ _ hne] at ih2
      constructor
      · split
        · rename_i a e hrec
          rw [hrec] at ih1
          exact ih1
        · rename_i a l hrec
          rw [hrec] at ih1
          exact ih1
      · split
        · rename_i a e hrec
          rw [hrec] at ih2
          exact ih2
        · rename_i a l hrec
          rw [hrec] at ih2
          exact ih2

/-- Splitting a successful run of the per-variant loop at a middle variant
`v`: `v`'s registered total is its own-member size at its turn plus the
header size, and the processed list stores `v` with the padding of that
total. -/
theorem esLoop_mid (hz : Nat) :
    ∀ (pre : List ExtensibleStruct) (api apiV : Api)
      (pre' : List ExtensibleStruct) (v : ExtensibleStruct)
      (post : List ExtensibleStruct) (apiF : Api)
      (out : List ExtensibleStruct) (m : Nat),
      esLoop hz api (pre ++ v :: post) = (apiF, .ok out) →
      esLoop hz api pre = (apiV, .ok pre') →
      calculate_member_size v.common.members apiV.type_sizes = .ok m →
      v.common.name ∉ post.map (fun s => s.common.name) →
      AMap.get apiF.type_sizes v.common.name = some (m + hz) ∧
      out.get? pre.length = some { v with padding := calculate_padding (m + hz) }
  | [], api, apiV, pre', v, post, apiF, out, m, hrun, hpre, hm, hfresh => by
    simp only [esLoop] at hpre
    injection hpre with hA hP
    subst hA
    simp only [List.nil_append, esLoop, hm] at hrun
    split at hrun
    · rename_i a e hrec
      injection hrun with h1 h2
      cases h2
    · rename_i a l hrec
      injection hrun with h1 h2
      subst h1
      injection h2 with h2
      subst h2
      constructor
      · have hfr : ∀ s ∈ post, s.common.name ≠ v.common.name := by
          intro s hs heq
          exact hfresh (List.mem_map.mpr ⟨s, hs, heq⟩)
        obtain ⟨f1, _⟩ := esLoop_frame hz
          { api with
            type_sizes := AMap.insert api.type_sizes v.common.name (m + hz)
            definition_items := AMap.insert api.definition_items v.common.name
              (DefinitionItem.ExtensibleStruct
                { v with padding := calculate_padding (m + hz) }) }
          post v.common.name hfr
        rw [hrec] at f1
        dsimp only at f1
        exact f1.trans (AMap.get_insert_self _ _ _)
      · rfl
  | p :: pre2, api, apiV, pre', v, post, apiF, out, m, hrun, hpre, hm, hfresh => by
    simp only [List.cons_append, esLoop] at hrun hpre
    cases hszp : calculate_member_size p.common.members api.type_sizes with
    | error e =>
      simp only [hszp] at hpre
      injection hpre with h1 h2
      cases h2
    | ok mp =>
      simp only [hszp] at hrun hpre
      split at hpre
      · rename_i a e hrec
        injection hpre with h1 h2
        cases h2
      · rename_i a l hrec
        injection hpre with h1 h2
        subst h1
        injection h2 with h2
        split at hrun
        · rename_i a2 e2 hrec2
          injection hrun with h3 h4
          cases h4
        · rename_i a2 l2 hrec2
          injection hrun with h3 h4
          subst h3
          injection h4 with h4
          subst h4
          have ih := esLoop_mid hz pre2
            { api with
              type_sizes := AMap.insert api.type_sizes p.common.name (mp + hz)
              definition_items := AMap.insert api.definition_items p.common.name
                (DefinitionItem.ExtensibleStruct
                  { p with padding := calculate_padding (mp + hz) }) }
            a l v post a2 l2 m hrec2 hrec hm hfresh
          exact ⟨ih.1, ih.2⟩

/-- Outcome-agnostic variant of the mid-point split: once the loop has
processed the prefix and the variant `v` itself, `v`'s registered total and
its item entry survive to the loop's final state — whether the remaining
variants succeed or fail — as long as no later variant reuses `v`'s name. -/
theorem esLoop_mid_state (hz : Nat) :
    ∀ (pre : List ExtensibleStruct) (api apiV : Api)
      (pre' : List ExtensibleStruct) (v : ExtensibleStruct)
      (post : List ExtensibleStruct) (m : Nat),
      esLoop hz api pre = (apiV, .ok pre') →
      calculate_member_size v.common.members apiV.type_sizes = .ok m →
      v.common.name ∉ post.map (fun s => s.common.name) →
      AMap.get (esLoop hz api (pre ++ v :: post)).1.type_sizes v.common.name =
        some (m + hz) ∧
      AMap.get (esLoop hz api (pre ++ v :: post)).1.definition_items v.common.name =
        some (.ExtensibleStruct { v with padding := calculate_padding (m + hz) })
  | [], api, apiV, pre', v, post, m, hpre, hm, hfresh => by
    simp only [esLoop] at hpre
    injection hpre with hA hP
    subst hA
    have hfr : ∀ s ∈ post, s.common.name ≠ v.common.name := by
      intro s hs heq
      exact hfresh (List.mem_map.mpr ⟨s, hs, heq⟩)
    obtain ⟨f1, f2⟩ := esLoop_frame hz
      { api with
        type_sizes := AMap.insert api.type_sizes v.common.name (m + hz)
        definition_items := AMap.insert api.definition_items v.common.name
          (DefinitionItem.ExtensibleStruct
            { v with padding := calculate_padding (m + hz) }) }
      post v.common.name hfr
    dsimp only at f1 f2
    rw [AMap.get_insert_self] at f1 f2
    simp only [List.nil_append, esLoop, hm]
    split
    · rename_i a e hrec
      rw [hrec] at f1 f2
      exact ⟨f1, f2⟩
    · rename_i a l hrec
      rw [hrec] at f1 f2
      exact ⟨f1, f2⟩
  | p :: pre2, api, apiV, pre', v, post, m, hpre, hm, hfresh => by
    simp only [List.cons_append, esLoop] at hpre ⊢
    split
    · rename_i e hszp
      simp only [hszp] at hpre
      injection hpre with h1 h2
      cases h2
    · rename_i mp hszp
      simp only [hszp] at hpre
      split at hpre
      · rename_i a e hrec
        injection hpre with h1 h2
        cases h2
      · rename_i a l hrec
        injection hpre with h1 h2
        subst h1
        injection h2 with h2
        have ih := esLoop_mid_state hz pre2
          { api with
            type_sizes := AMap.insert api.type_sizes p.common.name (mp + hz)
            definition_items := AMap.insert api.definition_items p.common.name
              (DefinitionItem.ExtensibleStruct
                { p with padding := calculate_padding (mp + hz) }) }
          a l v post m hrec hm hfresh
        split
        · rename_i a2 e2 hrec2
          rw [show pre2.append (v :: post) = pre2 ++ v :: post from rfl] at hrec2
          rw [hrec2] at ih
          exact ih
        · rename_i a2 l2 hrec2
          rw [show pre2.append (v :: post) = pre2 ++ v :: post from rfl] at hrec2
          rw [hrec2] at ih
          exact ih

/-! ### Claims C2, C6, C10 -/

/-- C2 counterexample: two variants that share the name `X` (own sizes 4 and
8): the run succeeds, the first variant's own members resolve to 4 both
before and after the run, yet the size registered under `X` is 16 — the
second variant overwrote it — and not 4 + 8 = 12 as the claim requires for
the first variant. -/
theorem c2_variant_total_counterexample :
    (add_extensible_structs Api.new "kinds" [esV1, esV2]).2 = .ok () ∧
    calculate_member_size esV1.common.members Api.new.type_sizes = .ok 4 ∧
    calculate_member_size esV1.common.members
      (add_extensible_structs Api.new "kinds" [esV1, esV2]).1.type_sizes = .ok 4 ∧
    AMap.get (add_extensible_structs Api.new "kinds" [esV1, esV2]).1.type_sizes "X" =
      some 16 ∧
    some (16 : Nat) ≠ some (4 + 8) := by
  refine ⟨by decide, by decide, by decide, by decide, by decide⟩

/-- C2 (amended): in a successful `add_extensible_structs` run over a
registry with `u32 ↦ 4`, a variant `v` whose own members resolve to `m` at
its turn, whose name is not reused by any later variant and differs from
`stypes_name`, gets registered size exactly `m + 8` (own size plus the
8-byte wire header `{stype, size}`), and the stored family holds `v` with
trailing padding `calculate_padding (m + 8)`. -/
theorem c2_variant_total_amended (api apiE apiV : Api) (stypes_name : String)
    (pre post : List ExtensibleStruct) (v : ExtensibleStruct)
    (pre' : List ExtensibleStruct) (api' : Api) (m : Nat)
    (h4 : AMap.get api.type_sizes "u32" = some 4)
    (hE : add_enum api (mkStypeEnum stypes_name (pre ++ v :: post)) = .ok apiE)
    (hpre : esLoop 8 apiE pre = (apiV, .ok pre'))
    (hm : calculate_member_size v.common.members apiV.type_sizes = .ok m)
    (hok : add_extensible_structs api stypes_name (pre ++ v :: post) = (api', .ok ()))
    (hfresh : v.common.name ∉ post.map (fun s => s.common.name)) :
    AMap.get api'.type_sizes v.common.name = some (m + 8) ∧
    ∃ fam, AMap.get api'.definition_items stypes_name =
        some (.ExtensibleStructs fam) ∧
      fam.structs.get? pre.length =
        some { v with padding := calculate_padding (m + 8) } := by
  obtain ⟨s, hs, hEeq⟩ := add_enum_inv api _ apiE hE
  simp only [mkStypeEnum] at hs
  rw [h4] at hs
  injection hs with hs
  subst hs
  have hhdr : calculate_member_size
      [⟨stypes_name, "", "stype"⟩, ⟨"u32", "", "size"⟩] apiE.type_sizes = .ok 8 := by
    rw [hEeq]
    exact hdr_size_eight api stypes_name h4
  simp only [add_extensible_structs, hE, hhdr] at hok
  split at hok
  · rename_i a e hrec
    injection hok with h1 h2
    cases h2
  · rename_i a l hrec
    injection hok with h1 h2
    subst h1
    have hmid := esLoop_mid 8 pre apiE apiV pre' v post a l m hrec hpre hm hfresh
    constructor
    · exact hmid.1
    · exact ⟨_, AMap.get_insert_self _ _ _, hmid.2⟩

/-- C2 witness: the single clean variant `V {a: u32}` in family `kinds`:
own size 4, registered total 4 + 8, padding of 12 attached. -/
theorem c2_variant_total_amended_witness :
    AMap.get (add_extensible_structs Api.new "kinds" [esW]).1.type_sizes "V" =
      some (4 + 8) ∧
    ∃ fam, AMap.get
        (add_extensible_structs Api.new "kinds" [esW]).1.definition_items "kinds" =
        some (.ExtensibleStructs fam) ∧
      fam.structs.get? 0 = some { esW with padding := calculate_padding (4 + 8) } :=
  c2_variant_total_amended Api.new apiEW apiEW "kinds" [] [] esW []
    (add_extensible_structs Api.new "kinds" [esW]).1 4
    (by decide) (by decide) (by decide) (by decide) (by decide) (by decide)

/-- C6 counterexample: `add_protocol` on a request with an unregistered
member type returns `TypeNotFound`, yet the synthesized 8-byte header struct
`FooCommandHdr` is already committed to the type-size registry, which was
untouched before the call; likewise a failing `add_extensible_structs`
(first variant `V` fine, second references `Bogus`) leaves the discriminator
enum `kinds ↦ 4` and the processed variant `V ↦ 12` committed, none of which
existed before the call — neither operation is atomic on error. -/
theorem c6_atomicity_counterexample :
    (add_protocol Api.new pBad).2 = .error (.TypeNotFound "Bogus") ∧
    AMap.get (add_protocol Api.new pBad).1.type_sizes "FooCommandHdr" = some 8 ∧
    AMap.get Api.new.type_sizes "FooCommandHdr" = none ∧
    (add_extensible_structs Api.new "kinds" [esW, esBad]).2 =
      .error (.TypeNotFound "Bogus") ∧
    AMap.get (add_extensible_structs Api.new "kinds" [esW, esBad]).1.type_sizes
      "kinds" = some 4 ∧
    AMap.get (add_extensible_structs Api.new "kinds" [esW, esBad]).1.type_sizes
      "V" = some 12 ∧
    AMap.get Api.new.type_sizes "kinds" = none ∧
    AMap.get Api.new.type_sizes "V" = none := by
  refine ⟨by decide, by decide, by decide, by decide, by decide, by decide,
    by decide, by decide⟩

/-- C6 (amended): a failing `add_protocol` or `add_extensible_structs`
reports the first error and commits no top-level item, but the registry is
not rolled back. Frame part: everything except the synthesized auxiliary
names — the protocol's header-struct name, respectively the family's
`stypes_name` and the variant names — is exactly as before the call.
Commit part: the synthesized header struct remains registered with its
size; once the discriminator enum was registered it remains (so the
`stypes_name` item is the enum, never the family) provided no variant
shares `stypes_name`; and every variant processed before the failure stays
registered with its total and padded item, provided no later variant
reuses its name. -/
theorem c6_error_frame :
    (∀ (api : Api) (p : Protocol) (api'' : Api) (e : ApiGenError),
       add_protocol api p = (api'', .error e) →
       ∀ k, k ≠ to_pascal_case p.name ++ "CommandHdr" →
         AMap.get api''.type_sizes k = AMap.get api.type_sizes k ∧
         AMap.get api''.definition_items k = AMap.get api.definition_items k) ∧
    (∀ (api : Api) (stypes_name : String) (vs : List ExtensibleStruct)
       (api'' : Api) (e : ApiGenError),
       add_extensible_structs api stypes_name vs = (api'', .error e) →
       ∀ k, k ≠ stypes_name → k ∉ vs.map (fun s => s.common.name) →
         AMap.get api''.type_sizes k = AMap.get api.type_sizes k ∧
         AMap.get api''.definition_items k = AMap.get api.definition_items k) ∧
    (∀ (api : Api) (p : Protocol) (api'' : Api) (e : ApiGenError) (sz : Nat),
       add_protocol api p = (api'', .error e) →
       calculate_member_size
         [⟨"u32", "", "proto"⟩, ⟨"u32", "", "size"⟩] api.type_sizes = .ok sz →
       AMap.get api''.type_sizes (to_pascal_case p.name ++ "CommandHdr") =
         some sz ∧
       AMap.get api''.definition_items (to_pascal_case p.name ++ "CommandHdr") =
         some (.Struct ⟨⟨to_pascal_case p.name ++ "CommandHdr",
           [⟨"u32", "", "proto"⟩, ⟨"u32", "", "size"⟩], []⟩⟩)) ∧
    (∀ (api : Api) (stypes_name : String) (vs : List ExtensibleStruct)
       (apiE api'' : Api) (e : ApiGenError),
       add_extensible_structs api stypes_name vs = (api'', .error e) →
       add_enum api (mkStypeEnum stypes_name vs) = .ok apiE →
       (∀ v ∈ vs, v.common.name ≠ stypes_name) →
       AMap.get api''.definition_items stypes_name =
         some (.Enum (mkStypeEnum stypes_name vs)) ∧
       ∃ s, AMap.get api''.type_sizes stypes_name = some s) ∧
    (∀ (api apiE apiV : Api) (stypes_name : String)
       (pre post : List ExtensibleStruct) (v : ExtensibleStruct)
       (pre' : List ExtensibleStruct) (api'' : Api) (e : ApiGenError)
       (m hsz : Nat),
       add_extensible_structs api stypes_name (pre ++ v :: post) =
         (api'', .error e) →
       add_enum api (mkStypeEnum stypes_name (pre ++ v :: post)) = .ok apiE →
       calculate_member_size [⟨stypes_name, "", "stype"⟩, ⟨"u32", "", "size"⟩]
         apiE.type_sizes = .ok hsz →
       esLoop hsz apiE pre = (apiV, .ok pre') →
       calculate_member_size v.common.members apiV.type_sizes = .ok m →
       v.common.name ∉ post.map (fun s => s.common.name) →
       AMap.get api''.type_sizes v.common.name = some (m + hsz) ∧
       AMap.get api''.definition_items v.common.name =
         some (.ExtensibleStruct { v with padding := calculate_padding (m + hsz) })) := by
  refine ⟨?_, ?_, ?_, ?_, ?_⟩
  · intro api p api'' e h k hk
    simp only [add_protocol] at h
    cases hsz : calculate_member_size
        [⟨"u32", "", "proto"⟩, ⟨"u32", "", "size"⟩] api.type_sizes with
    | error e0 =>
      simp only [hsz] at h
      injection h with h1 h2
      subst h1
      exact ⟨rfl, rfl⟩
    | ok sz =>
      simp only [hsz] at h
      split at h
      · rename_i e1 hreq
        injection h with h1 h2
        subst h1
        exact ⟨AMap.get_insert_ne _ _ _ _ (fun hh => hk hh.symm),
          AMap.get_insert_ne _ _ _ _ (fun hh => hk hh.symm)⟩
      · rename_i reqs hreq
        split at h
        · rename_i e1 hres
          injection h with h1 h2
          subst h1
          exact ⟨AMap.get_insert_ne _ _ _ _ (fun hh => hk hh.symm),
            AMap.get_insert_ne _ _ _ _ (fun hh => hk hh.symm)⟩
        · rename_i ress hres
          injection h with h1 h2
          cases h2
  · intro api stypes_name vs api'' e h k hk hkv
    simp only [add_extensible_structs] at h
    cases hE : add_enum api (mkStypeEnum stypes_name vs) with
    | error e0 =>
      simp only [hE] at h
      injection h with h1 h2
      subst h1
      exact ⟨rfl, rfl⟩
    | ok apiE =>
      simp only [hE] at h
      obtain ⟨s, _, hEeq⟩ := add_enum_inv api _ apiE hE
      have hname : (mkStypeEnum stypes_name vs).name = stypes_name := rfl
      have hgetT : AMap.get apiE.type_sizes k = AMap.get api.type_sizes k := by
        rw [hEeq]
        exact AMap.get_insert_ne _ _ _ _ (fun hh => hk hh.symm)
      have hgetI : AMap.get apiE.definition_items k =
          AMap.get api.definition_items k := by
        rw [hEeq]
        exact AMap.get_insert_ne _ _ _ _ (fun hh => hk hh.symm)
      have hfr : ∀ v ∈ vs, v.common.name ≠ k := by
        intro v hv heq
        exact hkv (List.mem_map.mpr ⟨v, hv, heq⟩)
      cases hhd : calculate_member_size
          [⟨stypes_name, "", "stype"⟩, ⟨"u32", "", "size"⟩] apiE.type_sizes with
      | error e1 =>
        simp only [hhd] at h
        injection h with h1 h2
        subst h1
        exact ⟨hgetT, hgetI⟩
      | ok hsz =>
        simp only [hhd] at h
        split at h
        · rename_i a e1 hrec
          injection h with h1 h2
          subst h1
          obtain ⟨f1, f2⟩ := esLoop_frame hsz apiE vs k hfr
          rw [hrec] at f1 f2
          exact ⟨f1.trans hgetT, f2.trans hgetI⟩
        · rename_i a l hrec
          injection h with h1 h2
          cases h2
  · intro api p api'' e sz h hsz
    simp only [add_protocol, hsz] at h
    split at h
    · rename_i e1 hreq
      injection h with h1 h2
      subst h1
      exact ⟨AMap.get_insert_self _ _ _, AMap.get_insert_self _ _ _⟩
    · rename_i reqs hreq
      split at h
      · rename_i e1 hres
        injection h with h1 h2
        subst h1
        exact ⟨AMap.get_insert_self _ _ _, AMap.get_insert_self _ _ _⟩
      · rename_i ress hres
        injection h with h1 h2
        cases h2
  · intro api stypes_name vs apiE api'' e h hE hfresh
    obtain ⟨s, hs, hEeq⟩ := add_enum_inv api _ apiE hE
    simp only [add_extensible_structs, hE] at h
    cases hhd : calculate_member_size
        [⟨stypes_name, "", "stype"⟩, ⟨"u32", "", "size"⟩] apiE.type_sizes with
    | error e1 =>
      simp only [hhd] at h
      injection h with h1 h2
      subst h1
      constructor
      · rw [hEeq]
        exact AMap.get_insert_self _ _ _
      · exact ⟨s, by rw [hEeq]; exact AMap.get_insert_self _ _ _⟩
    | ok hsz2 =>
      simp only [hhd] at h
      split at h
      · rename_i a e1 hrec
        injection h with h1 h2
        subst h1
        obtain ⟨f1, f2⟩ := esLoop_frame hsz2 apiE vs stypes_name hfresh
        rw [hrec] at f1 f2
        constructor
        · rw [f2, hEeq]
          exact AMap.get_insert_self _ _ _
        · exact ⟨s, by rw [f1, hEeq]; exact AMap.get_insert_self _ _ _⟩
      · rename_i a l hrec
        injection h with h1 h2
        cases h2
  · intro api apiE apiV stypes_name pre post v pre' api'' e m hsz h hE hhdr hpre hm hfresh
    simp only [add_extensible_structs, hE, hhdr] at h
    split at h
    · rename_i a e1 hrec
      injection h with h1 h2
      subst h1
      have hmid := esLoop_mid_state hsz pre apiE apiV pre' v post m hpre hm hfresh
      rw [hrec] at hmid
      exact hmid
    · rename_i a l hrec
      injection h with h1 h2
      cases h2

/-- C6 witness: the failing runs leave the untouched key `u8` exactly as it
was in the fresh registry, while the committed partial state is visible:
the 8-byte header struct, the discriminator enum under `kinds`, and the
processed variant `V` with its total 12 and padded item. -/
theorem c6_error_frame_witness :
    AMap.get (add_protocol Api.new pBad).1.type_sizes "u8" =
      AMap.get Api.new.type_sizes "u8" ∧
    AMap.get (add_extensible_structs Api.new "kinds" [esBad]).1.type_sizes "u8" =
      AMap.get Api.new.type_sizes "u8" ∧
    AMap.get (add_protocol Api.new pBad).1.type_sizes
      (to_pascal_case pBad.name ++ "CommandHdr") = some 8 ∧
    AMap.get (add_extensible_structs Api.new "kinds" [esW, esBad]).1.definition_items
      "kinds" = some (.Enum (mkStypeEnum "kinds" [esW, esBad])) ∧
    AMap.get (add_extensible_structs Api.new "kinds" [esW, esBad]).1.type_sizes
      "V" = some (4 + 8) ∧
    AMap.get (add_extensible_structs Api.new "kinds" [esW, esBad]).1.definition_items
      "V" = some (.ExtensibleStruct { esW with padding := calculate_padding (4 + 8) }) := by
  have hmid := c6_error_frame.2.2.2.2 Api.new apiEB apiEB "kinds" [] [esBad] esW []
    (add_extensible_structs Api.new "kinds" [esW, esBad]).1 (.TypeNotFound "Bogus")
    4 8 (by decide) (by decide) (by decide) (by decide) (by decide) (by decide)
  refine ⟨?_, ?_, ?_, ?_, hmid.1, hmid.2⟩
  · exact (c6_error_frame.1 Api.new pBad (add_protocol Api.new pBad).1
      (.TypeNotFound "Bogus") (by decide) "u8" (by decide)).1
  · exact (c6_error_frame.2.1 Api.new "kinds" [esBad]
      (add_extensible_structs Api.new "kinds" [esBad]).1 (.TypeNotFound "Bogus")
      (by decide) "u8" (by decide) (by decide)).1
  · exact (c6_error_frame.2.2.1 Api.new pBad (add_protocol Api.new pBad).1
      (.TypeNotFound "Bogus") 8 (by decide) (by decide)).1
  · exact (c6_error_frame.2.2.2.1 Api.new "kinds" [esW, esBad] apiEB
      (add_extensible_structs Api.new "kinds" [esW, esBad]).1
      (.TypeNotFound "Bogus") (by decide) (by decide) (by decide)).1

/-- C10 counterexample: a variant named like the family (`kinds`) makes the
successful run register the variant total 12 under `kinds`, so the type-size
entry for `stypes_name` does not remain the enum's 4 bytes. -/
theorem c10_stype_overwrite_counterexample :
    (add_extensible_structs Api.new "kinds" [esK]).2 = .ok () ∧
    AMap.get (add_extensible_structs Api.new "kinds" [esK]).1.type_sizes "kinds" =
      some 12 ∧
    AMap.get (add_extensible_structs Api.new "kinds" [esK]).1.type_sizes "kinds" ≠
      some 4 := by
  refine ⟨by decide, by decide, by decide⟩

/-- C10 (amended): after a successful `add_extensible_structs` over a
registry with `u32 ↦ 4`, provided no variant is named `stypes_name`, the
item registered under `stypes_name` is the `ExtensibleStructs` family (the
discriminator enum item registered earlier in the same call has been
overwritten), while the type-size entry for `stypes_name` remains the
enum's 4-byte underlying size. -/
theorem c10_family_overwrites_enum (api : Api) (stypes_name : String)
    (vs : List ExtensibleStruct) (api' : Api)
    (h4 : AMap.get api.type_sizes "u32" = some 4)
    (hok : add_extensible_structs api stypes_name vs = (api', .ok ()))
    (hfresh : ∀ v ∈ vs, v.common.name ≠ stypes_name) :
    (∃ fam, AMap.get api'.definition_items stypes_name =
        some (.ExtensibleStructs fam) ∧ fam.stypes_name = stypes_name) ∧
    AMap.get api'.type_sizes stypes_name = some 4 := by
  simp only [add_extensible_structs] at hok
  cases hE : add_enum api (mkStypeEnum stypes_name vs) with
  | error e0 =>
    simp only [hE] at hok
    injection hok with h1 h2
    cases h2
  | ok apiE =>
    simp only [hE] at hok
    obtain ⟨s, hs, hEeq⟩ := add_enum_inv api _ apiE hE
    simp only [mkStypeEnum] at hs
    rw [h4] at hs
    injection hs with hs
    subst hs
    have hhdr : calculate_member_size
        [⟨stypes_name, "", "stype"⟩, ⟨"u32", "", "size"⟩] apiE.type_sizes = .ok 8 := by
      rw [hEeq]
      exact hdr_size_eight api stypes_name h4
    simp only [hhdr] at hok
    split at hok
    · rename_i a e hrec
      injection hok with h1 h2
      cases h2
    · rename_i a l hrec
      injection hok with h1 h2
      subst h1
      constructor
      · exact ⟨_, AMap.get_insert_self _ _ _, rfl⟩
      · obtain ⟨f1, _⟩ := esLoop_frame 8 apiE vs stypes_name hfresh
        rw [hrec] at f1
        dsimp only
        rw [f1, hEeq]
        exact AMap.get_insert_self _ _ _

/-- C10 witness: the clean single-variant family `kinds = [V]`. -/
theorem c10_family_overwrites_enum_witness :
    (∃ fam, AMap.get
        (add_extensible_structs Api.new "kinds" [esW]).1.definition_items "kinds" =
        some (.ExtensibleStructs fam) ∧ fam.stypes_name = "kinds") ∧
    AMap.get (add_extensible_structs Api.new "kinds" [esW]).1.type_sizes "kinds" =
      some 4 :=
  c10_family_overwrites_enum Api.new "kinds" [esW]
    (add_extensible_structs Api.new "kinds" [esW]).1
    (by decide) (by decide) (by decide)

end ApigenXml
